import Mathlib

/-!
Verification of the move-table realignment engine and its supporting
numeric transforms (`dorado/utils/sequence_utils.cpp`).

Shallow embedding conventions:
* `std::string` / byte buffers are embedded as `List Char`; move tables
  (`std::vector<uint8_t>`) as `List Nat`.
* Reads that the C++ performs out of bounds (undefined behaviour on a
  `std::vector`/`std::string`) are made observable: the embedded
  functions return `Option`/`none` exactly when the C++ would read past
  the end of the buffer.
* The approximate overlap locator (`compute_overlap`, backed by
  minimap2) and the exact aligner (edlib) are external collaborators
  whose implementations are not part of this code base; `realign_moves`
  is therefore embedded as a function of their results (an
  `OverlapResult` and an edit script), exactly as the C++ consumes
  them.
-/

namespace Dorado

/-! ## Signal-to-sequence map builder (`moves_to_map`) -/

/-- Loop body of `moves_to_map`: for each block index `i` whose move
entry equals 1, emit `i * block_stride`.  `i` is the index of the head
of the remaining list. -/
def movesToMapGo (blockStride : Nat) : List Nat → Nat → List Nat
  | [], _ => []
  | m :: rest, i =>
    (if m = 1 then [i * blockStride] else []) ++ movesToMapGo blockStride rest (i + 1)

/-- `moves_to_map` from `sequence_utils.cpp`: scan the move table
emitting `i * block_stride` for every 1-entry, then append
`signal_len` as the sentinel.  (The `reserve_size` argument only
affects allocation and is omitted.) -/
def moves_to_map (moves : List Nat) (blockStride : Nat) (signalLen : Nat) : List Nat :=
  movesToMapGo blockStride moves 0 ++ [signalLen]

/-! ## Reverse complement (scalar implementation) -/

/-- The compile-time complement lookup table of the scalar
`reverse_complement_impl`: a 256-entry array that is zero-initialised
except at `A`, `C`, `G`, `T`. -/
def kComplementTable (c : Char) : Char :=
  if c = 'A' then 'T'
  else if c = 'T' then 'A'
  else if c = 'C' then 'G'
  else if c = 'G' then 'C'
  else Char.ofNat 0

/-- Scalar `reverse_complement_impl`: early-return for the empty
string; otherwise every template base is read in reverse order and run
through the complement table. -/
def reverse_complement_impl (sequence : List Char) : List Char :=
  if sequence = [] then []
  else (sequence.reverse).map kComplementTable

/-- The exported `reverse_complement` wrapper simply dispatches to the
implementation. -/
def reverse_complement (sequence : List Char) : List Char :=
  reverse_complement_impl sequence

/-- The four canonical bases, for which the transform is defined. -/
def isCanonicalBase (c : Char) : Prop :=
  c = 'A' ∨ c = 'C' ∨ c = 'G' ∨ c = 'T'

instance (c : Char) : Decidable (isCanonicalBase c) := by
  unfold isCanonicalBase; infer_instance

/-! ## Mean q-score -/

/-- Error taxonomy for the quality-score transform. -/
inductive MeanQError where
  | invalidRange
  deriving DecidableEq

/-- `kCharToScoreTable`: 256-entry table, zero except for ASCII codes
33..127, where entry `q` is `10^(-(q-33)/10)`. -/
def kCharToScoreTable (q : Nat) : Float :=
  if 33 ≤ q ∧ q ≤ 127 then Float.pow 10.0 (-(Float.ofNat (q - 33)) / 10.0) else 0.0

/-- `mean_qscore_from_qstring`: empty string yields 0; a start
position at or past the end throws (embedded as
`MeanQError.invalidRange`); otherwise the per-character error
probabilities from `start_pos` onward are averaged, converted back to
a q-score and clamped to `[1, 50]`. -/
def mean_qscore_from_qstring (qstring : List Nat) (startPos : Int) : Except MeanQError Float :=
  if qstring = [] then .ok 0.0
  else if (qstring.length : Int) ≤ startPos then .error .invalidRange
  else
    let totalError := ((qstring.drop startPos.toNat).map kCharToScoreTable).foldl (· + ·) 0.0
    let meanError := totalError / Float.ofNat (qstring.length - startPos.toNat)
    let meanQscore := -10.0 * Float.log10 meanError
    .ok (min (max meanQscore 1.0) 50.0)

/-! ## `count_trailing_chars` -/

/-- Loop of `count_trailing_chars`, scanning from index `i` downward.
The C++ index `i` is a `size_t`, so the loop condition `i >= 0` is
always true: when the character at index 0 also matches, `i--` wraps
around and the next access `adapter[SIZE_MAX]` is out of bounds —
embedded as `none`. -/
def countTrailingGo (adapter : List Char) (c : Char) : Nat → Nat → Option Nat
  | 0, count =>
    if adapter.getD 0 (Char.ofNat 0) = c then none else some count
  | i + 1, count =>
    if adapter.getD (i + 1) (Char.ofNat 0) = c then countTrailingGo adapter c i (count + 1)
    else some count

/-- `count_trailing_chars`: on the empty string `adapter.length() - 1`
wraps to `SIZE_MAX` and the very first access is out of bounds
(`none`); otherwise scan from the last index downward counting the
matching characters. -/
def count_trailing_chars (adapter : List Char) (c : Char) : Option Nat :=
  if adapter = [] then none
  else countTrailingGo adapter c (adapter.length - 1) 0

/-! ## Reverse complement (AVX2 implementation)

The throughput-optimised `reverse_complement_impl` processes the
template 32 bytes at a time.  Its per-byte semantics are those of the
`PSHUFB` instruction: for each index byte, a set high bit yields 0,
otherwise the low 4 bits select a byte from the corresponding 16-byte
lane of the table register. -/

/-- `kComplementTable` of the AVX2 path, as the 32 bytes of the
`_mm256_setr_epi8` call (low byte first; both 16-byte lanes are
identical).  The low 4 bits of `A`, `C`, `T`, `G` are 1, 3, 4, 7. -/
def kComplementTableAvx : List Char :=
  [Char.ofNat 0, 'T', Char.ofNat 0, 'G', 'A', Char.ofNat 0, Char.ofNat 0, 'C',
   Char.ofNat 0, Char.ofNat 0, Char.ofNat 0, Char.ofNat 0,
   Char.ofNat 0, Char.ofNat 0, Char.ofNat 0, Char.ofNat 0,
   Char.ofNat 0, 'T', Char.ofNat 0, 'G', 'A', Char.ofNat 0, Char.ofNat 0, 'C',
   Char.ofNat 0, Char.ofNat 0, Char.ofNat 0, Char.ofNat 0,
   Char.ofNat 0, Char.ofNat 0, Char.ofNat 0, Char.ofNat 0]

/-- `PSHUFB` within one 16-byte lane: high bit set gives 0, otherwise
the low nibble indexes the lane's table bytes. -/
def pshufbLane (table : List Char) (lane : List Char) : List Char :=
  lane.map fun b =>
    if 128 ≤ b.toNat % 256 then Char.ofNat 0
    else table.getD (b.toNat % 16) (Char.ofNat 0)

/-- `_mm256_shuffle_epi8`: `PSHUFB` applied to the two 16-byte lanes
independently. -/
def pshufb256 (table : List Char) (bytes : List Char) : List Char :=
  pshufbLane (table.take 16) (bytes.take 16) ++ pshufbLane (table.drop 16) (bytes.drop 16)

/-- The shuffle with `kByteReverseTable` reverses the byte order
within each 16-byte lane. -/
def reverseLanes (bytes : List Char) : List Char :=
  (bytes.take 16).reverse ++ (bytes.drop 16).reverse

/-- One iteration of the main vectorised loop on a 32-byte template
chunk: complement lookup, in-lane byte reversal, then the upper lane
is stored before the lower lane, reversing the 32 bytes overall. -/
def avxChunk (chunk : List Char) : List Char :=
  let reversedLanes := reverseLanes (pshufb256 kComplementTableAvx chunk)
  reversedLanes.drop 16 ++ reversedLanes.take 16

/-- Per-byte complement lookup used by the scalar tail loop of the
AVX2 path (a `PSHUFB` of a single byte in lane 0). -/
def avxLookup (b : Char) : Char :=
  if 128 ≤ b.toNat % 256 then Char.ofNat 0
  else kComplementTableAvx.getD (b.toNat % 16) (Char.ofNat 0)

/-- The AVX2 implementation's loops: `chunkCount` iterations of the
main loop, each consuming the 32-byte chunk last in memory, followed
by the scalar tail loop over the remaining `len % 32` leading bytes
(read in reverse order). -/
def avx2Go : Nat → List Char → List Char
  | 0, s => (s.reverse).map avxLookup
  | k + 1, s => avxChunk (s.drop (s.length - 32)) ++ avx2Go k (s.take (s.length - 32))

/-- AVX2 `reverse_complement_impl`: `len / 32` main-loop iterations
plus the tail loop. -/
def reverse_complement_avx2 (sequence : List Char) : List Char :=
  avx2Go (sequence.length / 32) sequence

/-! ## The move-table reconstructor (`realign_moves`)

State of the four-cursor walk.  The original move table is only ever
read at `moves[old_move_cursor]` immediately after an increment of
`old_move_cursor`, so the embedding threads, alongside the integer
cursor, the suffix `restMoves` of the original table that lies
strictly after the cursor: the next element the C++ reads is always
the head of `restMoves`, and an empty `restMoves` at a read means the
C++ reads past the end of the table. -/

structure RealignState where
  newMoves : List Nat
  newMoveCursor : Nat
  oldMoveCursor : Int
  restMoves : List Nat
  querySeqCursor : Int
  targetSeqCursor : Int
  deriving Repr, DecidableEq

/-- The `OverlapResult` as destructured by `realign_moves`:
`auto [is_overlap, query_start, query_end, target_start, target_end]`. -/
structure OverlapResult where
  found : Bool
  query_start : Int
  query_end : Int
  target_start : Int
  target_end : Int
  deriving Repr, DecidableEq

/-- Inner `while` of the MATCH/MISMATCH branch: scan the zeros that
trail the consumed '1'.  A zero is consumed silently while
`old_move_cursor < new_move_cursor + old_moves_offset` (catching up
after an insertion into the target), and otherwise is re-emitted as a
'0' in the new table.  `old` is the index of the head of `rest`;
exhausting `rest` while still scanning means the C++ reads
`moves[moves.size()]`, out of bounds (`none`). -/
def matchZeroLoop (oldOffset : Int) :
    List Nat → Int → Nat → List Nat → Option (List Nat × Int × Nat × List Nat)
  | [], _, _, _ => none
  | m :: rest, old, newC, acc =>
    if m = 0 then
      if old < (newC : Int) + oldOffset then
        matchZeroLoop oldOffset rest (old + 1) newC acc
      else
        matchZeroLoop oldOffset rest (old + 1) (newC + 1) (acc ++ [0])
    else some (acc, old, newC, rest)

/-- Inner `while` of the insertion-to-query branch: every trailing
zero of the discarded base is consumed and re-emitted as a '0'. -/
def insertQZeroLoop :
    List Nat → Int → Nat → List Nat → Option (List Nat × Int × Nat × List Nat)
  | [], _, _, _ => none
  | m :: rest, old, newC, acc =>
    if m = 0 then insertQZeroLoop rest (old + 1) (newC + 1) (acc ++ [0])
    else some (acc, old, newC, rest)

/-- One edit-script operation of the reconstruction loop.  Edlib
operation codes: 0 = match, 1 = insertion to target, 2 = insertion to
query, 3 = mismatch; any other value falls through all branches and
leaves the state unchanged. -/
def processOp (oldOffset : Int) (st : RealignState) (op : Nat) : Option RealignState :=
  if op = 0 ∨ op = 3 then
    match matchZeroLoop oldOffset st.restMoves (st.oldMoveCursor + 1) (st.newMoveCursor + 1)
        (st.newMoves ++ [1]) with
    | none => none
    | some (acc, old, newC, rest) =>
      some { newMoves := acc
             newMoveCursor := newC
             oldMoveCursor := old
             restMoves := rest
             querySeqCursor := st.querySeqCursor + 1
             targetSeqCursor := st.targetSeqCursor + 1 }
  else if op = 1 then
    some { st with
           newMoves := st.newMoves ++ [1]
           newMoveCursor := st.newMoveCursor + 1
           targetSeqCursor := st.targetSeqCursor + 1 }
  else if op = 2 then
    match insertQZeroLoop st.restMoves (st.oldMoveCursor + 1) (st.newMoveCursor + 1)
        (st.newMoves ++ [0]) with
    | none => none
    | some (acc, old, newC, rest) =>
      some { newMoves := acc
             newMoveCursor := newC
             oldMoveCursor := old
             restMoves := rest
             querySeqCursor := st.querySeqCursor + 1
             targetSeqCursor := st.targetSeqCursor }
  else some st

/-- The reconstruction loop over the edit script. -/
def processScript (oldOffset : Int) : List Nat → RealignState → Option RealignState
  | [], st => some st
  | op :: ops, st =>
    match processOp oldOffset st op with
    | none => none
    | some st2 => processScript oldOffset ops st2

/-- Pre-roll of `realign_moves`: advance the old-move cursor,
accumulating consumed flags, while `moves_found < moves.size() &&
moves_found < query_start`.  The guard bounds only `moves_found`, not
the cursor itself, so the read `moves[old_move_cursor]` can run past
the end of the table (`none`).  Returns the final cursor together
with the unread suffix of the table. -/
def preRollLoop (totalLen : Nat) (queryStart : Int) :
    List Nat → Nat → Nat → Option (Nat × List Nat)
  | rest, movesFound, old =>
    if (movesFound : Int) < (totalLen : Int) ∧ (movesFound : Int) < queryStart then
      match rest with
      | [] => none
      | m :: rest2 => preRollLoop totalLen queryStart rest2 (movesFound + m) (old + 1)
    else some (old, rest)

/-- `realign_moves`, embedded as a function of the overlap locator's
result and the exact aligner's edit script (both external
collaborators).  Note that the C++ never inspects `overlap.found`: the
pre-roll and the reconstruction loop run unconditionally, and the
function returns `(old_moves_offset, target_start - 1, new_moves)`. -/
def realign_moves (overlap : OverlapResult) (alignment : List Nat) (moves : List Nat) :
    Option (Int × Int × List Nat) :=
  match preRollLoop moves.length overlap.query_start moves 0 0 with
  | none => none
  | some (oldEnd, rest) =>
    -- `--old_move_cursor; int old_moves_offset = old_move_cursor;`
    let oldMovesOffset : Int := (oldEnd : Int) - 1
    let st0 : RealignState :=
      { newMoves := []
        newMoveCursor := 0
        oldMoveCursor := oldMovesOffset
        restMoves := rest
        querySeqCursor := overlap.query_start
        targetSeqCursor := overlap.target_start }
    match processScript oldMovesOffset alignment st0 with
    | none => none
    | some st => some (oldMovesOffset, overlap.target_start - 1, st.newMoves)

/-! ## Theorems: signal-to-sequence map builder -/

lemma movesToMapGo_eq_enumFrom (blockStride : Nat) :
    ∀ (l : List Nat) (i : Nat),
      movesToMapGo blockStride l i =
        ((List.enumFrom i l).filter fun p => p.2 == 1).map fun p => p.1 * blockStride := by
  intro l
  induction l with
  | nil => intro i; simp [movesToMapGo]
  | cons m rest ih =>
    intro i
    by_cases hm : m = 1
    · subst hm
      simp [movesToMapGo, List.enumFrom, ih]
    · simp [movesToMapGo, List.enumFrom, ih, hm]

lemma movesToMapGo_length (blockStride : Nat) :
    ∀ (l : List Nat) (i : Nat), (movesToMapGo blockStride l i).length = l.count 1 := by
  intro l
  induction l with
  | nil => intro i; simp [movesToMapGo]
  | cons m rest ih =>
    intro i
    by_cases hm : m = 1
    · subst hm
      simp [movesToMapGo, ih, List.count_cons]
    · simp [movesToMapGo, ih, List.count_cons, hm]

lemma movesToMapGo_all_zero (blockStride : Nat) :
    ∀ (l : List Nat) (i : Nat), (∀ m ∈ l, m = 0) → movesToMapGo blockStride l i = [] := by
  intro l
  induction l with
  | nil => intro i _; simp [movesToMapGo]
  | cons m rest ih =>
    intro i h
    have hm : m = 0 := h m (by simp)
    have hrest : ∀ x ∈ rest, x = 0 := fun x hx => h x (by simp [hx])
    simp [movesToMapGo, hm, ih _ hrest]

/-- C6: `moves_to_map` emits `i * block_stride` for each index `i`
whose entry is 1, in increasing index order, followed by the
`total_signal_length` sentinel; its length is `(#ones) + 1`, and an
all-zero move table yields `[total_signal_length]`.  There are no
error conditions. -/
theorem moves_to_map_spec (moves : List Nat) (blockStride signalLen : Nat)
    (hstride : 0 < blockStride) :
    moves_to_map moves blockStride signalLen =
      ((moves.enum.filter fun p => p.2 == 1).map fun p => p.1 * blockStride) ++ [signalLen] ∧
    (moves_to_map moves blockStride signalLen).length = moves.count 1 + 1 ∧
    ((∀ m ∈ moves, m = 0) → moves_to_map moves blockStride signalLen = [signalLen]) := by
  refine ⟨?_, ?_, ?_⟩
  · rw [moves_to_map, List.enum, movesToMapGo_eq_enumFrom]
  · rw [moves_to_map]
    simp [movesToMapGo_length]
  · intro h
    rw [moves_to_map, movesToMapGo_all_zero _ _ _ h]
    simp

/-- Witness for C6 at a concrete input: the all-zero table `[0, 0]`
with stride 2 and signal length 7 maps to `[7]`. -/
theorem moves_to_map_spec_witness : moves_to_map [0, 0] 2 7 = [7] :=
  (moves_to_map_spec [0, 0] 2 7 (by decide)).2.2 (by decide)

/-! ## Theorems: reverse complement (scalar) -/

lemma reverse_complement_impl_eq (s : List Char) :
    reverse_complement_impl s = (s.map kComplementTable).reverse := by
  rw [reverse_complement_impl]
  by_cases h : s = []
  · subst h; simp
  · rw [if_neg h, List.map_reverse]

lemma reverse_complement_eq (s : List Char) :
    reverse_complement s = (s.map kComplementTable).reverse := by
  rw [reverse_complement, reverse_complement_impl_eq]

lemma kComplementTable_involutive {c : Char} (hc : isCanonicalBase c) :
    kComplementTable (kComplementTable c) = c := by
  rcases hc with rfl | rfl | rfl | rfl <;> decide

/-- C7: `reverse_complement` is an involution on sequences over
{A,C,G,T}: complementing under the pairing A-T, C-G and reversing
twice restores the input; in particular the reverse complement of
"AACG" is "CGTT". -/
theorem reverse_complement_involution :
    (∀ s : List Char, (∀ c ∈ s, isCanonicalBase c) →
      reverse_complement (reverse_complement s) = s) ∧
    reverse_complement "AACG".toList = "CGTT".toList := by
  constructor
  · intro s hs
    rw [reverse_complement_eq, reverse_complement_eq, List.map_reverse,
      List.reverse_reverse, List.map_map]
    calc s.map (kComplementTable ∘ kComplementTable)
        = s.map id := List.map_congr_left fun c hc => kComplementTable_involutive (hs c hc)
      _ = s := List.map_id s
  · decide

/-- Witness for C7: applying the involution at the concrete sequence
"AACG". -/
theorem reverse_complement_involution_witness :
    reverse_complement (reverse_complement "AACG".toList) = "AACG".toList :=
  reverse_complement_involution.1 "AACG".toList (by decide)

/-! ## Theorems: reverse complement (AVX2 path) -/

lemma kComplementTableAvx_lanes :
    ∀ i < 16,
      (kComplementTableAvx.take 16).getD i (Char.ofNat 0) =
        kComplementTableAvx.getD i (Char.ofNat 0) ∧
      (kComplementTableAvx.drop 16).getD i (Char.ofNat 0) =
        kComplementTableAvx.getD i (Char.ofNat 0) := by
  decide

lemma pshufbLane_take_eq (lane : List Char) :
    pshufbLane (kComplementTableAvx.take 16) lane = lane.map avxLookup := by
  rw [pshufbLane]
  refine List.map_congr_left fun b _ => ?_
  rw [avxLookup]
  by_cases hb : 128 ≤ b.toNat % 256
  · rw [if_pos hb, if_pos hb]
  · rw [if_neg hb, if_neg hb,
      (kComplementTableAvx_lanes (b.toNat % 16) (Nat.mod_lt _ (by norm_num))).1]

lemma pshufbLane_drop_eq (lane : List Char) :
    pshufbLane (kComplementTableAvx.drop 16) lane = lane.map avxLookup := by
  rw [pshufbLane]
  refine List.map_congr_left fun b _ => ?_
  rw [avxLookup]
  by_cases hb : 128 ≤ b.toNat % 256
  · rw [if_pos hb, if_pos hb]
  · rw [if_neg hb, if_neg hb,
      (kComplementTableAvx_lanes (b.toNat % 16) (Nat.mod_lt _ (by norm_num))).2]

lemma pshufb256_complement (chunk : List Char) :
    pshufb256 kComplementTableAvx chunk = chunk.map avxLookup := by
  rw [pshufb256, pshufbLane_take_eq, pshufbLane_drop_eq, ← List.map_append,
    List.take_append_drop]

/-- On a full 32-byte chunk, in-lane reversal followed by storing the
upper lane first reverses all 32 complemented bytes. -/
lemma avxChunk_eq (chunk : List Char) (h : chunk.length = 32) :
    avxChunk chunk = (chunk.map avxLookup).reverse := by
  rw [avxChunk, pshufb256_complement, reverseLanes]
  have hlen : ((chunk.map avxLookup).take 16).length = 16 := by
    simp [h]
  have hrevlen : ((chunk.map avxLookup).take 16).reverse.length = 16 := by
    simp [hlen]
  rw [List.drop_append_of_le_length (by rw [hrevlen]),
    List.take_append_of_le_length (by rw [hrevlen])]
  simp only [hrevlen, Nat.sub_self, List.drop_zero, List.drop_of_length_le (le_of_eq hrevlen),
    List.nil_append, List.take_of_length_le (le_of_eq hrevlen)]
  rw [← List.reverse_append, List.take_append_drop]

lemma avx2Go_eq : ∀ (k : Nat) (s : List Char), 32 * k ≤ s.length →
    avx2Go k s = (s.map avxLookup).reverse := by
  intro k
  induction k with
  | zero => intro s _; rw [avx2Go, List.map_reverse]
  | succ k ih =>
    intro s h
    have h32 : 32 ≤ s.length := le_trans (by omega) h
    have hchunk : (s.drop (s.length - 32)).length = 32 := by
      rw [List.length_drop]; omega
    have htake : (s.take (s.length - 32)).length = s.length - 32 := by
      rw [List.length_take]; omega
    rw [avx2Go, avxChunk_eq _ hchunk, ih _ (by rw [htake]; omega)]
    rw [← List.reverse_append, ← List.map_append, List.take_append_drop]

/-- C8: the scalar and the AVX2 chunked table-lookup implementations
of the reverse complement produce identical output on every sequence
over {A,C,G,T}, of any length. -/
theorem reverse_complement_avx2_agrees_scalar (s : List Char)
    (hs : ∀ c ∈ s, isCanonicalBase c) :
    reverse_complement_avx2 s = reverse_complement_impl s := by
  have hdiv : 32 * (s.length / 32) ≤ s.length := by
    have := Nat.div_mul_le_self s.length 32
    omega
  rw [reverse_complement_avx2, avx2Go_eq _ _ hdiv, reverse_complement_impl_eq]
  refine congrArg List.reverse (List.map_congr_left fun c hc => ?_)
  rcases hs c hc with rfl | rfl | rfl | rfl <;> decide

/-- Witness for C8 at a concrete input (37 bases: one full 32-byte
chunk of the vectorised loop plus a 5-byte scalar tail). -/
theorem reverse_complement_avx2_agrees_scalar_witness :
    reverse_complement_avx2 "ACGTACGTACGTACGTACGTACGTACGTACGTACGTA".toList =
      reverse_complement_impl "ACGTACGTACGTACGTACGTACGTACGTACGTACGTA".toList :=
  reverse_complement_avx2_agrees_scalar _ (by decide)

/-! ## Theorems: mean q-score -/

/-- C9 counterexample: the claim asserts that `mean_qscore(s, len(s))`
fails with `InvalidRange` for every `s`, but the empty-string check
comes first in the code: `mean_qscore("", 0)` returns 0 even though
`start_pos = 0 = length`. -/
theorem mean_qscore_empty_not_invalid_range :
    mean_qscore_from_qstring [] 0 = .ok 0.0 ∧
    mean_qscore_from_qstring [] 0 ≠ .error .invalidRange := by
  constructor
  · rfl
  · intro h
    exact Except.noConfusion h

/-- C9 amended: for a nonempty quality string, a start position at or
past the end fails with `InvalidRange`; the empty string yields 0
regardless of the start position (the empty-string case is checked
before the range check, so `mean_qscore("", 0)` is 0, not an error). -/
theorem mean_qscore_range_check (qstring : List Nat) (startPos : Int) :
    (qstring ≠ [] → (qstring.length : Int) ≤ startPos →
      mean_qscore_from_qstring qstring startPos = .error .invalidRange) ∧
    (qstring = [] → mean_qscore_from_qstring qstring startPos = .ok 0.0) := by
  constructor
  · intro hne hle
    rw [mean_qscore_from_qstring, if_neg hne, if_pos hle]
  · intro h
    subst h
    rfl

/-- Witness for C9 at concrete inputs: `mean_qscore([33], 1)` is
`InvalidRange` and `mean_qscore([], 5)` is 0. -/
theorem mean_qscore_range_check_witness :
    mean_qscore_from_qstring [33] 1 = .error .invalidRange ∧
    mean_qscore_from_qstring [] 5 = .ok 0.0 :=
  ⟨(mean_qscore_range_check [33] 1).1 (by decide) (by decide),
   (mean_qscore_range_check [] 5).2 rfl⟩

/-! ## Theorems: `count_trailing_chars` -/

lemma countTrailingGo_append (ys : List Char) (a : Char) (c : Char) :
    ∀ i, i < ys.length → ∀ count,
      countTrailingGo (ys ++ [a]) c i count = countTrailingGo ys c i count := by
  intro i
  induction i with
  | zero =>
    intro hi count
    rw [countTrailingGo, countTrailingGo, List.getD_append _ _ _ _ hi]
  | succ i ih =>
    intro hi count
    rw [countTrailingGo, countTrailingGo, List.getD_append _ _ _ _ hi]
    by_cases hc : ys.getD (i + 1) (Char.ofNat 0) = c
    · rw [if_pos hc, if_pos hc, ih (by omega)]
    · rw [if_neg hc, if_neg hc]

lemma countTrailingGo_spec :
    ∀ (l : List Char) (c : Char), (∃ x ∈ l, x ≠ c) → ∀ count,
      countTrailingGo l c (l.length - 1) count =
        some (count + (l.reverse.takeWhile fun x => x == c).length) := by
  intro l
  induction l using List.reverseRecOn with
  | nil =>
    intro c h
    simp at h
  | append_singleton ys a ih =>
    intro c h count
    have hlen : (ys ++ [a]).length - 1 = ys.length := by simp
    have hgetD : (ys ++ [a]).getD ys.length (Char.ofNat 0) = a := by
      rw [List.getD_append_right _ _ _ _ (le_refl _), Nat.sub_self]
      rfl
    rw [hlen]
    by_cases ha : a = c
    · subst ha
      have hys : ∃ x ∈ ys, x ≠ a := by
        rcases h with ⟨x, hx, hxa⟩
        rcases List.mem_append.mp hx with hx | hx
        · exact ⟨x, hx, hxa⟩
        · simp at hx
          exact absurd hx hxa
      have hne : ys ≠ [] := by
        rintro rfl
        rcases hys with ⟨x, hx, _⟩
        simp at hx
      obtain ⟨k, hk⟩ : ∃ k, ys.length = k + 1 :=
        ⟨ys.length - 1, by rcases ys with _ | ⟨y, ys⟩ <;> simp_all⟩
      rw [hk, countTrailingGo, ← hk, hgetD, if_pos rfl,
        countTrailingGo_append ys a a k (by omega) (count + 1)]
      have hrec := ih a hys (count + 1)
      rw [hk] at hrec
      simp only [Nat.add_sub_cancel] at hrec
      rw [hrec]
      have htw : ((ys ++ [a]).reverse.takeWhile fun x => x == a).length =
          (ys.reverse.takeWhile fun x => x == a).length + 1 := by
        rw [List.reverse_append]
        simp [List.takeWhile_cons]
      rw [htw]
      congr 1
      omega
    · have htw : ((ys ++ [a]).reverse.takeWhile fun x => x == c).length = 0 := by
        rw [List.reverse_append]
        simp [List.takeWhile_cons, ha]
      rw [htw, Nat.add_zero]
      rcases hk : ys.length with _ | k
      · have hys : ys = [] := List.eq_nil_of_length_eq_zero hk
        subst hys
        rw [countTrailingGo]
        simp only [List.nil_append]
        rw [if_neg (by simpa using ha)]
      · rw [countTrailingGo, ← hk, hgetD, if_neg ha]

/-- C10: for every string containing at least one character different
from `c`, the scan terminates with only in-bounds accesses (the
embedded result is `some`, never the out-of-bounds marker `none`) and
returns the length of the maximal trailing run of `c`.  The
precondition is required because the unsigned loop index makes the
all-`c` and empty cases wrap around and read out of bounds. -/
theorem count_trailing_chars_spec (adapter : List Char) (c : Char)
    (h : ∃ x ∈ adapter, x ≠ c) :
    count_trailing_chars adapter c =
      some ((adapter.reverse.takeWhile fun x => x == c).length) := by
  have hne : adapter ≠ [] := by
    rintro rfl
    rcases h with ⟨x, hx, _⟩
    simp at hx
  rw [count_trailing_chars, if_neg hne, countTrailingGo_spec adapter c h 0, Nat.zero_add]

/-- Witness for C10 at a concrete input: "AACGTT" has a maximal
trailing run of two `T`s. -/
theorem count_trailing_chars_spec_witness :
    count_trailing_chars "AACGTT".toList 'T' = some 2 :=
  (count_trailing_chars_spec "AACGTT".toList 'T' (by decide)).trans (by decide)

/-! ## Theorems: the move-table reconstructor -/

/-- Synchronisation invariant of the four-cursor walk: the old-move
cursor leads the count of emitted entries by exactly
`old_moves_offset`, and the new table holds exactly
`new_move_cursor` entries. -/
def SyncInv (oldOffset : Int) (st : RealignState) : Prop :=
  st.oldMoveCursor = (st.newMoveCursor : Int) + oldOffset ∧
  st.newMoves.length = st.newMoveCursor

/-- While the cursors are in sync the skip branch of the
MATCH/MISMATCH zero loop never fires: every consumed zero is
re-emitted, and the loop exits still in sync having appended only
zeros. -/
lemma matchZeroLoop_sync (oldOffset : Int) :
    ∀ (rest : List Nat) (newC : Nat) (acc acc2 : List Nat) (old2 : Int) (newC2 : Nat)
      (rest2 : List Nat),
      matchZeroLoop oldOffset rest ((newC : Int) + oldOffset) newC acc =
        some (acc2, old2, newC2, rest2) →
      acc.length = newC →
      old2 = (newC2 : Int) + oldOffset ∧ acc2.length = newC2 ∧
        ∃ z, acc2 = acc ++ List.replicate z 0 := by
  intro rest
  induction rest with
  | nil =>
    intro newC acc acc2 old2 newC2 rest2 hrun
    exact absurd hrun (by simp [matchZeroLoop])
  | cons m rest ih =>
    intro newC acc acc2 old2 newC2 rest2 hrun hlen
    rw [matchZeroLoop] at hrun
    by_cases hm : m = 0
    · rw [if_pos hm, if_neg (lt_irrefl _)] at hrun
      have hcast : (newC : Int) + oldOffset + 1 = ((newC + 1 : Nat) : Int) + oldOffset := by
        push_cast
        ring
      rw [hcast] at hrun
      obtain ⟨h1, h2, z, hz⟩ := ih (newC + 1) (acc ++ [0]) _ _ _ _ hrun (by simp [hlen])
      refine ⟨h1, h2, z + 1, ?_⟩
      rw [hz, List.append_assoc]
      rfl
    · rw [if_neg hm] at hrun
      simp only [Option.some.injEq, Prod.mk.injEq] at hrun
      obtain ⟨rfl, rfl, rfl, rfl⟩ := hrun
      exact ⟨rfl, hlen, 0, by simp⟩

/-- The insertion-to-query zero loop advances the old cursor and the
emission count in lockstep: it also preserves the sync invariant and
appends only zeros. -/
lemma insertQZeroLoop_sync (oldOffset : Int) :
    ∀ (rest : List Nat) (newC : Nat) (acc acc2 : List Nat) (old2 : Int) (newC2 : Nat)
      (rest2 : List Nat),
      insertQZeroLoop rest ((newC : Int) + oldOffset) newC acc =
        some (acc2, old2, newC2, rest2) →
      acc.length = newC →
      old2 = (newC2 : Int) + oldOffset ∧ acc2.length = newC2 ∧
        ∃ z, acc2 = acc ++ List.replicate z 0 := by
  intro rest
  induction rest with
  | nil =>
    intro newC acc acc2 old2 newC2 rest2 hrun
    exact absurd hrun (by simp [insertQZeroLoop])
  | cons m rest ih =>
    intro newC acc acc2 old2 newC2 rest2 hrun hlen
    rw [insertQZeroLoop] at hrun
    by_cases hm : m = 0
    · rw [if_pos hm] at hrun
      have hcast : (newC : Int) + oldOffset + 1 = ((newC + 1 : Nat) : Int) + oldOffset := by
        push_cast
        ring
      rw [hcast] at hrun
      obtain ⟨h1, h2, z, hz⟩ := ih (newC + 1) (acc ++ [0]) _ _ _ _ hrun (by simp [hlen])
      refine ⟨h1, h2, z + 1, ?_⟩
      rw [hz, List.append_assoc]
      rfl
    · rw [if_neg hm] at hrun
      simp only [Option.some.injEq, Prod.mk.injEq] at hrun
      obtain ⟨rfl, rfl, rfl, rfl⟩ := hrun
      exact ⟨rfl, hlen, 0, by simp⟩

/-- A MATCH/MISMATCH or INSERT_IN_QUERY operation applied in sync
stays in sync; the count of '1' entries grows by one for a
MATCH/MISMATCH and is unchanged for an INSERT_IN_QUERY. -/
lemma processOp_sync (oldOffset : Int) (st st2 : RealignState) (op : Nat)
    (hop : op = 0 ∨ op = 2 ∨ op = 3)
    (hrun : processOp oldOffset st op = some st2)
    (hinv : SyncInv oldOffset st) :
    SyncInv oldOffset st2 ∧
      st2.newMoves.count 1 = st.newMoves.count 1 + (if op = 2 then 0 else 1) := by
  obtain ⟨hsync, hlen⟩ := hinv
  have hcast : st.oldMoveCursor + 1 = ((st.newMoveCursor + 1 : Nat) : Int) + oldOffset := by
    rw [hsync]
    push_cast
    ring
  rcases hop with rfl | rfl | rfl
  · rw [processOp, if_pos (Or.inl rfl)] at hrun
    cases hm : matchZeroLoop oldOffset st.restMoves (st.oldMoveCursor + 1)
        (st.newMoveCursor + 1) (st.newMoves ++ [1]) with
    | none => rw [hm] at hrun; exact absurd hrun (by simp)
    | some r =>
      obtain ⟨acc2, old2, newC2, rest2⟩ := r
      rw [hm] at hrun
      simp only [Option.some.injEq] at hrun
      rw [hcast] at hm
      obtain ⟨h1, h2, z, hz⟩ :=
        matchZeroLoop_sync oldOffset st.restMoves (st.newMoveCursor + 1)
          (st.newMoves ++ [1]) acc2 old2 newC2 rest2 hm (by simp [hlen])
      subst hrun
      refine ⟨⟨h1, h2⟩, ?_⟩
      simp [hz, List.count_append, List.count_replicate]
  · rw [processOp, if_neg (show ¬((2 : Nat) = 0 ∨ (2 : Nat) = 3) by decide),
      if_neg (show ¬(2 : Nat) = 1 by decide), if_pos (show (2 : Nat) = 2 from rfl)] at hrun
    cases hm : insertQZeroLoop st.restMoves (st.oldMoveCursor + 1)
        (st.newMoveCursor + 1) (st.newMoves ++ [0]) with
    | none => rw [hm] at hrun; exact absurd hrun (by simp)
    | some r =>
      obtain ⟨acc2, old2, newC2, rest2⟩ := r
      rw [hm] at hrun
      simp only [Option.some.injEq] at hrun
      rw [hcast] at hm
      obtain ⟨h1, h2, z, hz⟩ :=
        insertQZeroLoop_sync oldOffset st.restMoves (st.newMoveCursor + 1)
          (st.newMoves ++ [0]) acc2 old2 newC2 rest2 hm (by simp [hlen])
      subst hrun
      refine ⟨⟨h1, h2⟩, ?_⟩
      simp [hz, List.count_append, List.count_replicate]
  · rw [processOp, if_pos (Or.inr rfl)] at hrun
    cases hm : matchZeroLoop oldOffset st.restMoves (st.oldMoveCursor + 1)
        (st.newMoveCursor + 1) (st.newMoves ++ [1]) with
    | none => rw [hm] at hrun; exact absurd hrun (by simp)
    | some r =>
      obtain ⟨acc2, old2, newC2, rest2⟩ := r
      rw [hm] at hrun
      simp only [Option.some.injEq] at hrun
      rw [hcast] at hm
      obtain ⟨h1, h2, z, hz⟩ :=
        matchZeroLoop_sync oldOffset st.restMoves (st.newMoveCursor + 1)
          (st.newMoves ++ [1]) acc2 old2 newC2 rest2 hm (by simp [hlen])
      subst hrun
      refine ⟨⟨h1, h2⟩, ?_⟩
      simp [hz, List.count_append, List.count_replicate]

/-- Processing an edit script containing only MATCH/MISMATCH and
INSERT_IN_QUERY operations preserves the sync invariant; the count of
'1' entries grows by the number of MATCH/MISMATCH operations. -/
lemma processScript_sync (oldOffset : Int) :
    ∀ (script : List Nat) (st st2 : RealignState),
      (∀ op ∈ script, op = 0 ∨ op = 2 ∨ op = 3) →
      processScript oldOffset script st = some st2 →
      SyncInv oldOffset st →
      SyncInv oldOffset st2 ∧
        st2.newMoves.count 1 =
          st.newMoves.count 1 + script.countP (fun op => op == 0 || op == 3) := by
  intro script
  induction script with
  | nil =>
    intro st st2 _ hrun hinv
    rw [processScript] at hrun
    simp only [Option.some.injEq] at hrun
    subst hrun
    simpa using hinv
  | cons op ops ih =>
    intro st st2 hops hrun hinv
    rw [processScript] at hrun
    cases hop : processOp oldOffset st op with
    | none => rw [hop] at hrun; exact absurd hrun (by simp)
    | some st1 =>
      rw [hop] at hrun
      have hopmem : op = 0 ∨ op = 2 ∨ op = 3 := hops op (by simp)
      obtain ⟨hinv1, hcount1⟩ := processOp_sync oldOffset st st1 op hopmem hop hinv
      obtain ⟨hinv2, hcount2⟩ := ih st1 st2 (fun x hx => hops x (by simp [hx])) hrun hinv1
      refine ⟨hinv2, ?_⟩
      rw [hcount2, hcount1, List.countP_cons]
      rcases hopmem with rfl | rfl | rfl <;> simp <;> ring

/-- `processScript` distributes over script concatenation. -/
lemma processScript_append (oldOffset : Int) :
    ∀ (a b : List Nat) (st : RealignState),
      processScript oldOffset (a ++ b) st =
        match processScript oldOffset a st with
        | none => none
        | some st1 => processScript oldOffset b st1 := by
  intro a
  induction a with
  | nil => intro b st; rw [List.nil_append, processScript]
  | cons op ops ih =>
    intro b st
    rw [List.cons_append, processScript, processScript]
    cases hop : processOp oldOffset st op with
    | none => rfl
    | some st1 => exact ih b st1

/-- C2: over a window containing only MATCH/MISMATCH operations,
starting from the post-pre-roll state (empty new table, old cursor at
`old_moves_offset`), the new move table has exactly the same total
block count as the portion of the original move table consumed for
the window (the distance travelled by the old-move cursor), and each
operation contributes exactly one '1' (the rest of its emission being
the re-emitted trailing '0's). -/
theorem match_window_preserves_block_count (oldOffset : Int) (rest : List Nat)
    (q t : Int) (script : List Nat) (st2 : RealignState)
    (hops : ∀ op ∈ script, op = 0 ∨ op = 3)
    (hrun : processScript oldOffset script ⟨[], 0, oldOffset, rest, q, t⟩ = some st2) :
    (st2.newMoves.length : Int) = st2.oldMoveCursor - oldOffset ∧
    st2.newMoves.count 1 = script.length := by
  have hinv0 : SyncInv oldOffset ⟨[], 0, oldOffset, rest, q, t⟩ := by
    constructor <;> simp
  obtain ⟨⟨h1, h2⟩, hcount⟩ := processScript_sync oldOffset script _ st2
    (fun op hop => (hops op hop).elim Or.inl (fun h => Or.inr (Or.inr h))) hrun hinv0
  constructor
  · rw [h2, h1]
    ring
  · rw [hcount]
    simp only [List.count_nil, Nat.zero_add]
    exact List.countP_eq_length.mpr fun op hop => by
      rcases hops op hop with rfl | rfl <;> decide

/-- Witness for C2: the single-MATCH script `[0]` over the window
`[0, 1]` of the original table, starting at offset 0, emits `[1, 0]`
(two blocks) while consuming two blocks. -/
theorem match_window_preserves_block_count_witness :
    ((([1, 0] : List Nat).length : Int) = (2 : Int) - 0 ∧
      ([1, 0] : List Nat).count 1 = ([0] : List Nat).length) :=
  match_window_preserves_block_count 0 [0, 1] 1 1 [0] ⟨[1, 0], 2, 2, [], 2, 2⟩
    (by decide) (by decide)

/-- C3 counterexample: over the window with edit script
`[INSERT_IN_QUERY, MATCH]` and original-table suffix `[1, 0, 1]`, the
reconstructor emits `[0, 1, 0]` — three blocks — while the old-move
cursor travels from 0 to 3, consuming three blocks: the new table's
block count equals the consumed window, it is not one smaller. -/
theorem insert_in_query_block_count_counterexample :
    processScript 0 [2, 0] ⟨[], 0, 0, [1, 0, 1], 1, 1⟩ =
      some ⟨[0, 1, 0], 3, 3, [], 3, 2⟩ ∧
    ¬ ((([0, 1, 0] : List Nat).length : Int) = (3 : Int) - 0 - 1) := by
  constructor
  · decide
  · decide

/-- On a script whose operations lie in {0, 2, 3}, the MATCH/MISMATCH
count and the INSERT_IN_QUERY count sum to the script length. -/
lemma countP_match_add_countP_insertQ :
    ∀ (script : List Nat), (∀ op ∈ script, op = 0 ∨ op = 2 ∨ op = 3) →
      script.countP (fun op => op == 0 || op == 3) +
        script.countP (fun op => op == 2) = script.length := by
  intro script
  induction script with
  | nil => intro _; simp
  | cons op ops ih =>
    intro hops
    have hih := ih fun x hx => hops x (by simp [hx])
    rw [List.countP_cons, List.countP_cons, List.length_cons]
    rcases hops op (by simp) with rfl | rfl | rfl <;> simp <;> omega

/-- C3 amended: over a window with exactly one INSERT_IN_QUERY (the
rest MATCH/MISMATCH), the new move table's total block count is
exactly EQUAL to the consumed old window — the count that drops by 1
is the count of '1' boundaries (bases), the discarded base's '1' and
its trailing '0's all appearing as '0' entries in the new table —
and there is never a length mismatch. -/
theorem insert_in_query_window_block_count (oldOffset : Int) (rest : List Nat)
    (q t : Int) (script : List Nat) (st2 : RealignState)
    (hops : ∀ op ∈ script, op = 0 ∨ op = 2 ∨ op = 3)
    (hone : script.countP (fun op => op == 2) = 1)
    (hrun : processScript oldOffset script ⟨[], 0, oldOffset, rest, q, t⟩ = some st2) :
    (st2.newMoves.length : Int) = st2.oldMoveCursor - oldOffset ∧
    st2.newMoves.count 1 = script.length - 1 := by
  have hinv0 : SyncInv oldOffset ⟨[], 0, oldOffset, rest, q, t⟩ := by
    constructor <;> simp
  obtain ⟨⟨h1, h2⟩, hcount⟩ := processScript_sync oldOffset script _ st2 hops hrun hinv0
  constructor
  · rw [h2, h1]
    ring
  · rw [hcount]
    simp only [List.count_nil, Nat.zero_add]
    have hsplit := countP_match_add_countP_insertQ script hops
    omega

/-- Witness for C3 at the concrete window of the counterexample: block
count 3 equals the consumed window 3, and the single MATCH leaves one
'1' (one fewer base than the two operations). -/
theorem insert_in_query_window_block_count_witness :
    ((([0, 1, 0] : List Nat).length : Int) = (3 : Int) - 0 ∧
      ([0, 1, 0] : List Nat).count 1 = ([2, 0] : List Nat).length - 1) :=
  insert_in_query_window_block_count 0 [1, 0, 1] 1 1 [2, 0] ⟨[0, 1, 0], 3, 3, [], 3, 2⟩
    (by decide) (by decide) (by decide)

/-- C4 counterexample: over the window with edit script
`[INSERT_IN_TARGET, MATCH]` and original-table suffix `[0, 1, 0]`, the
MATCH that follows the insertion finds the cursors out of sync and
skips the consumed zero without re-emitting it: the reconstructor
emits `[1, 1]` — two blocks — while the old cursor travels from 0 to
2, so the new table is NOT one block larger than the consumed
window. -/
theorem insert_in_target_block_count_counterexample :
    processScript 0 [1, 0] ⟨[], 0, 0, [0, 1, 0], 1, 1⟩ =
      some ⟨[1, 1], 2, 2, [0], 2, 3⟩ ∧
    ¬ ((([1, 1] : List Nat).length : Int) = (2 : Int) - 0 + 1) := by
  constructor
  · decide
  · decide

/-- C4 amended: an INSERT_IN_TARGET operation itself emits exactly one
'1' and consumes nothing from the original table; and when the single
INSERT_IN_TARGET is the final operation of the window (the rest
MATCH/MISMATCH), the new table's block count is exactly one larger
than the consumed old window.  (When MATCH/MISMATCH operations follow
the insertion, the first zero they consume while the cursors are out
of sync is dropped rather than re-emitted, restoring equality, so the
+1 does not hold at an arbitrary operation position.) -/
theorem insert_in_target_window_block_count (oldOffset : Int) (rest : List Nat)
    (q t : Int) (ms : List Nat) (st2 : RealignState)
    (hops : ∀ op ∈ ms, op = 0 ∨ op = 3)
    (hrun : processScript oldOffset (ms ++ [1]) ⟨[], 0, oldOffset, rest, q, t⟩ = some st2) :
    (st2.newMoves.length : Int) = st2.oldMoveCursor - oldOffset + 1 ∧
    st2.newMoves.count 1 = ms.length + 1 ∧
    (∀ st : RealignState, processOp oldOffset st 1 =
      some { st with
             newMoves := st.newMoves ++ [1]
             newMoveCursor := st.newMoveCursor + 1
             targetSeqCursor := st.targetSeqCursor + 1 }) := by
  have hinsert : ∀ st : RealignState, processOp oldOffset st 1 =
      some { st with
             newMoves := st.newMoves ++ [1]
             newMoveCursor := st.newMoveCursor + 1
             targetSeqCursor := st.targetSeqCursor + 1 } := by
    intro st
    rw [processOp, if_neg (show ¬((1 : Nat) = 0 ∨ (1 : Nat) = 3) by decide),
      if_pos (show (1 : Nat) = 1 from rfl)]
  rw [processScript_append] at hrun
  cases h1 : processScript oldOffset ms ⟨[], 0, oldOffset, rest, q, t⟩ with
  | none => rw [h1] at hrun; exact absurd hrun (by simp)
  | some st1 =>
    rw [h1] at hrun
    simp only [processScript, hinsert] at hrun
    simp only [Option.some.injEq] at hrun
    have hinv0 : SyncInv oldOffset ⟨[], 0, oldOffset, rest, q, t⟩ := by
      constructor <;> simp
    obtain ⟨⟨hs1, hs2⟩, hcount⟩ := processScript_sync oldOffset ms _ st1
      (fun op hop => (hops op hop).elim Or.inl (fun h => Or.inr (Or.inr h))) h1 hinv0
    subst hrun
    refine ⟨?_, ?_, hinsert⟩
    · simp only [List.length_append, List.length_cons, List.length_nil]
      rw [hs2, hs1]
      push_cast
      ring
    · simp only [List.count_append]
      rw [hcount]
      simp only [List.count_nil, Nat.zero_add]
      have : ms.countP (fun op => op == 0 || op == 3) = ms.length :=
        List.countP_eq_length.mpr fun op hop => by
          rcases hops op hop with rfl | rfl <;> decide
      rw [this]
      simp

/-- Witness for C4 at a concrete window: the script `[MATCH,
INSERT_IN_TARGET]` over the suffix `[0, 1]` emits `[1, 0, 1]` — three
blocks — while the old cursor travels from 0 to 2. -/
theorem insert_in_target_window_block_count_witness :
    ((([1, 0, 1] : List Nat).length : Int) = (2 : Int) - 0 + 1 ∧
      ([1, 0, 1] : List Nat).count 1 = ([0] : List Nat).length + 1) := by
  have h := insert_in_target_window_block_count 0 [0, 1] 1 1 [0]
    ⟨[1, 0, 1], 3, 2, [], 2, 3⟩ (by decide) (by decide)
  exact ⟨h.1, h.2.1⟩

/-- C1 (code-level behaviour): `realign_moves` never inspects
`OverlapResult.found`.  When the locator reports no overlap (`found =
false`, all offsets zero, so the external aligner sees two empty
windows and yields an empty edit script), the function still runs the
pre-roll and the reconstruction loop and returns a spliced result —
the out-of-range offsets `(-1, -1)` and an empty table — instead of a
`NoOverlapFound` error; no error channel exists in its return type. -/
theorem realign_moves_no_overlap_still_runs :
    realign_moves ⟨false, 0, 0, 0, 0⟩ [] [1, 0] = some (-1, -1, []) := by
  decide

/-- C5 (code-level behaviour): the pre-roll guard bounds only
`moves_found` (the count of consumed '1' flags), never the cursor
itself, so with `query_start = 1` over the all-zero single-entry
table `[0]` the cursor advances past the end and the loop reads
`moves[1]`, one past the end of the table — the embedded
out-of-bounds marker `none`.  The code has no `MalformedMoveTable`
failure path and performs no range check. -/
theorem realign_moves_out_of_bounds_read :
    realign_moves ⟨true, 1, 2, 1, 2⟩ [] [0] = none := by
  decide

end Dorado
